import Mathlib

/-!
Shallow embedding of the tunnels repository.

Part 1 embeds the radial-unit waveform functions of tunnelz/waveforms.pyx
(floats modelled as real numbers; the Python float operation x % 1.0 is
x - floor x for real x, i.e. Int.fract) together with the legacy
radian-unit square wave kept in the same module.

Part 2 embeds the draw-command frame decoding of the Processing render
client: the msgpack token stream is a list of tokens, the unpacker is a
fueled token-stream parser, and the ZMQ subscribe socket is a list of
pending messages plus the next message that a blocking receive would
deliver.
-/

namespace Tunnels

open Real

/-! ## Waveform functions, radial units (tunnelz/waveforms.pyx)

Each source function first reduces its angle mod 1, then applies the
duty-cycle gate, and then evaluates the shape of the wave at the
compressed phase.  The shape (the body of the source function after the
gate) is split into its own definition; the top-level function composes
gate and shape exactly as the source does.
-/

/-- Body of tunnelz sine after the duty-cycle gate.  In the pulse branch
the source subtracts HALF_PI, the radian constant pi / 2, from the
radial-unit angle before scaling by TWOPI. -/
noncomputable def sineShape (a : ℝ) (pulse : Bool) : ℝ :=
  if pulse then (Real.sin (2 * π * (a - π / 2)) + 1) / 2
  else Real.sin (2 * π * a)

/-- tunnelz sine: angle mod 1, duty-cycle gate, then the sine shape at the
compressed phase. -/
noncomputable def sine (angle smoothing duty_cycle : ℝ) (pulse : Bool) : ℝ :=
  let a := Int.fract angle
  if a > duty_cycle ∨ duty_cycle = 0 then 0
  else sineShape (a / duty_cycle) pulse

/-- Body of tunnelz triangle after the duty-cycle gate. -/
noncomputable def triangleShape (a : ℝ) (pulse : Bool) : ℝ :=
  if pulse then
    if a < 1/2 then 2 * a else 2 * (1 - a)
  else
    if a < 1/4 then 4 * a
    else if a > 3/4 then 4 * (a - 1)
    else 2 - 4 * a

/-- tunnelz triangle: angle mod 1, duty-cycle gate, then the triangle
shape at the compressed phase. -/
noncomputable def triangle (angle smoothing duty_cycle : ℝ) (pulse : Bool) : ℝ :=
  let a := Int.fract angle
  if a > duty_cycle ∨ duty_cycle = 0 then 0
  else triangleShape (a / duty_cycle) pulse

/-- Body of tunnelz square after the duty-cycle gate, non-pulse branch:
the chain of smoothing cases of the source. -/
noncomputable def squareShapeNP (a s : ℝ) : ℝ :=
  if s = 0 then (if a < 1/2 then 1 else -1)
  else if a < s then a / s
  else if a > 1/2 - s ∧ a < 1/2 + s then -(a - 1/2) / s
  else if a > 1 - s then (a - 1) / s
  else if s ≤ a ∧ a ≤ 1/2 - s then 1
  else -1

/-- tunnelz square specialized to pulse = false: angle mod 1, duty-cycle
gate, then the non-pulse square shape.  The pulse branch of the source
calls this function recursively as square(angle / 2, smoothing, 1.0,
False). -/
noncomputable def squareNP (angle smoothing duty_cycle : ℝ) : ℝ :=
  let a := Int.fract angle
  if a > duty_cycle ∨ duty_cycle = 0 then 0
  else squareShapeNP (a / duty_cycle) smoothing

/-- Body of tunnelz square after the duty-cycle gate, dispatching on
pulse exactly as the source: the pulse branch is the recursive call
square(a / 2, smoothing, 1.0, False). -/
noncomputable def squareShape (a s : ℝ) (pulse : Bool) : ℝ :=
  if pulse then squareNP (a / 2) s 1 else squareShapeNP a s

/-- tunnelz square: angle mod 1, duty-cycle gate, then the square shape
at the compressed phase. -/
noncomputable def square (angle smoothing duty_cycle : ℝ) (pulse : Bool) : ℝ :=
  let a := Int.fract angle
  if a > duty_cycle ∨ duty_cycle = 0 then 0
  else squareShape (a / duty_cycle) smoothing pulse

/-- Body of tunnelz sawtooth after the duty-cycle gate, non-pulse branch. -/
noncomputable def sawtoothShapeNP (a s : ℝ) : ℝ :=
  if s = 0 then (if a < 1/2 then 2 * a else 2 * (a - 1))
  else if a < 1/2 - s then a / (1/2 - s)
  else if a > 1/2 + s then (a - 1) / (1/2 - s)
  else -(a - 1/2) / s

/-- tunnelz sawtooth specialized to pulse = false; the pulse branch of
the source calls this recursively as sawtooth(angle / 2, smoothing, 1.0,
False). -/
noncomputable def sawtoothNP (angle smoothing duty_cycle : ℝ) : ℝ :=
  let a := Int.fract angle
  if a > duty_cycle ∨ duty_cycle = 0 then 0
  else sawtoothShapeNP (a / duty_cycle) smoothing

/-- Body of tunnelz sawtooth after the duty-cycle gate, dispatching on
pulse exactly as the source. -/
noncomputable def sawtoothShape (a s : ℝ) (pulse : Bool) : ℝ :=
  if pulse then sawtoothNP (a / 2) s 1 else sawtoothShapeNP a s

/-- tunnelz sawtooth: angle mod 1, duty-cycle gate, then the sawtooth
shape at the compressed phase. -/
noncomputable def sawtooth (angle smoothing duty_cycle : ℝ) (pulse : Bool) : ℝ :=
  let a := Int.fract angle
  if a > duty_cycle ∨ duty_cycle = 0 then 0
  else sawtoothShape (a / duty_cycle) smoothing pulse

/-- Python float modulus for a positive modulus, as used by the legacy
radian-unit waveforms: a % m = a - m * floor (a / m). -/
noncomputable def fmod (a m : ℝ) : ℝ := a - m * ⌊a / m⌋

/-- Legacy radian-unit square wave kept at the bottom of the same module.
The smoothing = 0 case returns 1 in both of its arms, exactly as in the
source. -/
noncomputable def squareLegacy (angle smoothing : ℝ) : ℝ :=
  let a := fmod angle (2 * π)
  if smoothing = 0 then (if a < π then 1 else 1)
  else if a < smoothing then a / smoothing
  else if a > π - smoothing ∧ a < π + smoothing then -(a - π) / smoothing
  else if a > 2 * π - smoothing then (a - 2 * π) / smoothing
  else if smoothing ≤ a ∧ a ≤ π - smoothing then 1
  else -1

/-! ## Waveform helper lemmas -/

/-- The square specialized at pulse = false coincides with the full
square at pulse = false, witnessing that the two Lean definitions split
the single source function faithfully. -/
theorem square_false_eq_squareNP (angle s d : ℝ) :
    square angle s d false = squareNP angle s d := by
  simp [square, squareNP, squareShape]

/-- The sawtooth specialized at pulse = false coincides with the full
sawtooth at pulse = false. -/
theorem sawtooth_false_eq_sawtoothNP (angle s d : ℝ) :
    sawtooth angle s d false = sawtoothNP angle s d := by
  simp [sawtooth, sawtoothNP, sawtoothShape]

/-! ## C4: periodicity in the phase argument -/

/-- C4: each of the four waveform functions is periodic with period 1 in
its phase argument, for every smoothing, duty cycle and pulse flag. -/
theorem waveforms_periodic (p s d : ℝ) (pulse : Bool) :
    sine (p + 1) s d pulse = sine p s d pulse ∧
    triangle (p + 1) s d pulse = triangle p s d pulse ∧
    square (p + 1) s d pulse = square p s d pulse ∧
    sawtooth (p + 1) s d pulse = sawtooth p s d pulse := by
  refine ⟨?_, ?_, ?_, ?_⟩ <;>
    simp only [sine, triangle, square, sawtooth, Int.fract_add_one]

/-! ## C2: the duty-cycle gate -/

/-- C2: for each of the four waveform functions, if the duty cycle is 0
or the normalized phase exceeds the duty cycle the function returns 0;
otherwise it evaluates the shape of the wave at the compressed phase
fract p / duty_cycle. -/
theorem waveforms_duty_gate (p s d : ℝ) (pulse : Bool) :
    ((d = 0 ∨ Int.fract p > d) →
      sine p s d pulse = 0 ∧ triangle p s d pulse = 0 ∧
      square p s d pulse = 0 ∧ sawtooth p s d pulse = 0) ∧
    (d ≠ 0 → Int.fract p ≤ d →
      sine p s d pulse = sineShape (Int.fract p / d) pulse ∧
      triangle p s d pulse = triangleShape (Int.fract p / d) pulse ∧
      square p s d pulse = squareShape (Int.fract p / d) s pulse ∧
      sawtooth p s d pulse = sawtoothShape (Int.fract p / d) s pulse) := by
  constructor
  · intro h
    have hg : Int.fract p > d ∨ d = 0 := h.symm
    refine ⟨?_, ?_, ?_, ?_⟩ <;>
      simp only [sine, triangle, square, sawtooth, if_pos hg]
  · intro hd hle
    have hg : ¬(Int.fract p > d ∨ d = 0) := by
      push_neg
      exact ⟨not_lt.1 (by simpa using hle), hd⟩
    refine ⟨?_, ?_, ?_, ?_⟩ <;>
      simp only [sine, triangle, square, sawtooth, if_neg hg]

/-- Witness for C2 at concrete inputs: a gated evaluation at duty cycle 0
and an open evaluation at duty cycle 1/2. -/
theorem waveforms_duty_gate_witness :
    sine 2 0 0 true = 0 ∧
    square (1/4) 0 (1/2) false = squareShape ((1/4) / (1/2)) 0 false := by
  have hf : Int.fract ((1:ℝ)/4) = 1/4 := Int.fract_eq_self.2 (by norm_num)
  constructor
  · exact ((waveforms_duty_gate 2 0 0 true).1 (Or.inl rfl)).1
  · have h := (waveforms_duty_gate (1/4) 0 (1/2) false).2 (by norm_num)
      (by rw [hf]; norm_num)
    rw [hf] at h
    exact h.2.2.1

/-! ## C1: the pulse sine is not the quarter-cycle shifted sine -/

/-- The sine of pi squared is not 1: otherwise pi squared would be an odd
multiple of pi / 2 and pi would be rational. -/
theorem sin_pi_sq_ne_one : Real.sin (π ^ 2) ≠ 1 := by
  intro h
  have hc : Real.cos (π ^ 2) = 0 := by
    nlinarith [Real.sin_sq_add_cos_sq (π ^ 2)]
  obtain ⟨k, hk⟩ := Real.cos_eq_zero_iff.1 hc
  have h2 : π * π = π * ((2 * (k : ℝ) + 1) / 2) := by
    rw [← sq, hk]; ring
  have hpi : π = (2 * (k : ℝ) + 1) / 2 := mul_left_cancel₀ Real.pi_ne_zero h2
  apply Rat.not_irrational ((2 * (k : ℚ) + 1) / 2)
  have hcast : (((2 * (k : ℚ) + 1) / 2 : ℚ) : ℝ) = (2 * (k : ℝ) + 1) / 2 := by
    push_cast; ring
  rw [hcast, ← hpi]
  exact irrational_pi

/-- C1, code evaluation at the failing input: at phase 0 with duty cycle 1
the pulse sine evaluates to (1 - sin (pi ^ 2)) / 2, because the source
subtracts the radian constant HALF_PI from a radial-unit angle; this
differs from the quarter-cycle shifted value (sin (2 pi (0 - 1/4)) + 1) / 2
= 0 claimed by the spec. -/
theorem sine_pulse_not_quarter_shifted :
    sine 0 0 1 true = (1 - Real.sin (π ^ 2)) / 2 ∧
    sine 0 0 1 true ≠ (Real.sin (2 * π * ((0:ℝ) - 1/4)) + 1) / 2 := by
  have hval : sine 0 0 1 true = (1 - Real.sin (π ^ 2)) / 2 := by
    simp only [sine, Int.fract_zero]
    rw [if_neg (by norm_num)]
    have hshape : sineShape ((0:ℝ) / 1) true =
        (Real.sin (2 * π * ((0:ℝ) / 1 - π / 2)) + 1) / 2 := by
      simp [sineShape]
    have harg : 2 * π * ((0:ℝ) / 1 - π / 2) = -(π ^ 2) := by ring
    rw [hshape, harg, Real.sin_neg]
    ring
  refine ⟨hval, ?_⟩
  have hrhs : (Real.sin (2 * π * ((0:ℝ) - 1/4)) + 1) / 2 = 0 := by
    have harg : 2 * π * ((0:ℝ) - 1/4) = -(π / 2) := by ring
    rw [harg, Real.sin_neg, Real.sin_pi_div_two]
    ring
  rw [hval, hrhs]
  intro h
  exact sin_pi_sq_ne_one (by linarith)

/-- At duty cycle 1 the gate is always open, since fract is below 1. -/
theorem gate_open_d1 (x : ℝ) : ¬(Int.fract x > 1 ∨ (1:ℝ) = 0) := by
  push_neg
  exact ⟨(Int.fract_lt_one x).le, one_ne_zero⟩

/-- Triangle at duty cycle 1 is its shape at the normalized phase. -/
theorem triangle_d1 (x s : ℝ) (pulse : Bool) :
    triangle x s 1 pulse = triangleShape (Int.fract x) pulse := by
  simp only [triangle, if_neg (gate_open_d1 x), div_one]

/-- Square at duty cycle 1 is its shape at the normalized phase. -/
theorem square_d1 (x s : ℝ) (pulse : Bool) :
    square x s 1 pulse = squareShape (Int.fract x) s pulse := by
  simp only [square, if_neg (gate_open_d1 x), div_one]

/-- Sawtooth at duty cycle 1 is its shape at the normalized phase. -/
theorem sawtooth_d1 (x s : ℝ) (pulse : Bool) :
    sawtooth x s 1 pulse = sawtoothShape (Int.fract x) s pulse := by
  simp only [sawtooth, if_neg (gate_open_d1 x), div_one]

/-! ## C5: landmarks of the triangle wave -/

/-- C5 counterexample: at phase 0.25 with duty cycle 1 and no pulse the
triangle wave evaluates to 1, its positive peak, not to 0 as the claimed
zero-crossing would require. -/
theorem triangle_quarter_not_zero :
    triangle (1/4) 0 1 false = 1 ∧ triangle (1/4) 0 1 false ≠ 0 := by
  have h14 : Int.fract ((1:ℝ)/4) = 1/4 := Int.fract_eq_self.2 (by norm_num)
  have hval : triangle (1/4) 0 1 false = 1 := by
    rw [triangle_d1, h14]
    norm_num [triangleShape]
  exact ⟨hval, by rw [hval]; norm_num⟩

/-- C5 amended: over one cycle at duty cycle 1 the non-pulse triangle has
zero-crossings at phases 0 and 0.5, its positive peak 1 at phase 0.25 and
its negative peak -1 at phase 0.75; the pulse variant runs 0 at phase 0
up to its peak 1 at phase 0.5 and back down, with value 1/2 at phases
0.25 and 0.75. -/
theorem triangle_landmarks (s : ℝ) :
    triangle 0 s 1 false = 0 ∧ triangle (1/4) s 1 false = 1 ∧
    triangle (1/2) s 1 false = 0 ∧ triangle (3/4) s 1 false = -1 ∧
    triangle 0 s 1 true = 0 ∧ triangle (1/4) s 1 true = 1/2 ∧
    triangle (1/2) s 1 true = 1 ∧ triangle (3/4) s 1 true = 1/2 := by
  have h14 : Int.fract ((1:ℝ)/4) = 1/4 := Int.fract_eq_self.2 (by norm_num)
  have h12 : Int.fract ((1:ℝ)/2) = 1/2 := Int.fract_eq_self.2 (by norm_num)
  have h34 : Int.fract ((3:ℝ)/4) = 3/4 := Int.fract_eq_self.2 (by norm_num)
  refine ⟨?_, ?_, ?_, ?_, ?_, ?_, ?_, ?_⟩ <;>
    rw [triangle_d1] <;>
    norm_num [h14, h12, h34, Int.fract_zero, triangleShape]

/-! ## C9: the legacy radian-unit square disagrees at smoothing 0 -/

/-- C9, code evaluation at the failing input: at phase 0.5 (radian angle
pi) with smoothing 0, the legacy radian-unit square returns 1 (both arms
of its smoothing = 0 conditional return 1), while the current radial-unit
square returns -1, so the two do not agree under the unit change. -/
theorem square_legacy_disagrees :
    squareLegacy (2 * π * (1/2)) 0 = 1 ∧ square (1/2) 0 1 false = -1 ∧
    squareLegacy (2 * π * (1/2)) 0 ≠ square (1/2) 0 1 false := by
  have h2pi : (2:ℝ) * π ≠ 0 := by positivity
  have hdiv : (2 * π * (1/2)) / (2 * π) = (1:ℝ)/2 := by
    rw [div_eq_iff h2pi]; ring
  have hfloor : ⌊(1:ℝ)/2⌋ = 0 := by norm_num
  have hleg : squareLegacy (2 * π * (1/2)) 0 = 1 := by
    simp [squareLegacy, fmod, hdiv, hfloor]
  have h12 : Int.fract ((1:ℝ)/2) = 1/2 := Int.fract_eq_self.2 (by norm_num)
  have hsq : square (1/2) 0 1 false = -1 := by
    rw [square_d1, h12]
    norm_num [squareShape, squareShapeNP]
  refine ⟨hleg, hsq, ?_⟩
  rw [hleg, hsq]
  norm_num

/-! ## C10: the unsmoothed pulse square is a constant-on gate -/

/-- C10: with pulse = true and smoothing = 0, for duty cycle d in (0, 1],
the square wave returns exactly 1 whenever the normalized phase is below
d and exactly 0 whenever it is above d. -/
theorem square_pulse_gate (p d : ℝ) (hd0 : 0 < d) (hd1 : d ≤ 1) :
    (Int.fract p < d → square p 0 d true = 1) ∧
    (Int.fract p > d → square p 0 d true = 0) := by
  constructor
  · intro hlt
    have hg : ¬(Int.fract p > d ∨ d = 0) := by
      push_neg
      exact ⟨hlt.le, hd0.ne.symm⟩
    have ha0 : 0 ≤ Int.fract p / d := div_nonneg (Int.fract_nonneg p) hd0.le
    have ha1 : Int.fract p / d < 1 := (div_lt_one hd0).2 hlt
    have hshape : squareShape (Int.fract p / d) 0 true =
        squareNP (Int.fract p / d / 2) 0 1 := by
      simp [squareShape]
    have hfr : Int.fract (Int.fract p / d / 2) = Int.fract p / d / 2 :=
      Int.fract_eq_self.2 ⟨by linarith, by linarith⟩
    have hval : squareShapeNP (Int.fract p / d / 2) 0 = 1 := by
      unfold squareShapeNP
      rw [if_pos rfl, if_pos (show Int.fract p / d / 2 < 1/2 by linarith)]
    simp only [square, if_neg hg, hshape, squareNP, hfr]
    rw [if_neg (by push_neg; exact ⟨by linarith, one_ne_zero⟩)]
    rw [div_one]
    exact hval
  · intro hgt
    simp only [square, if_pos (Or.inl hgt)]

/-- Witness for C10 at duty cycle 1/2: phase 1/4 is inside the duty
window and yields 1, phase 3/4 is outside and yields 0. -/
theorem square_pulse_gate_witness :
    square (1/4) 0 (1/2) true = 1 ∧ square (3/4) 0 (1/2) true = 0 := by
  have h14 : Int.fract ((1:ℝ)/4) = 1/4 := Int.fract_eq_self.2 (by norm_num)
  have h34 : Int.fract ((3:ℝ)/4) = 3/4 := Int.fract_eq_self.2 (by norm_num)
  refine ⟨(square_pulse_gate (1/4) (1/2) (by norm_num) (by norm_num)).1 ?_,
          (square_pulse_gate (3/4) (1/2) (by norm_num) (by norm_num)).2 ?_⟩
  · rw [h14]; norm_num
  · rw [h34]; norm_num

/-! ## C3: output ranges -/

/-- Bounds for the sine shape: always within [-1, 1], and within [0, 1]
in the pulse branch. -/
theorem sineShape_bounds (a : ℝ) :
    (-1 ≤ sineShape a false ∧ sineShape a false ≤ 1) ∧
    (0 ≤ sineShape a true ∧ sineShape a true ≤ 1) := by
  have hf : sineShape a false = Real.sin (2 * π * a) := by simp [sineShape]
  have ht : sineShape a true = (Real.sin (2 * π * (a - π / 2)) + 1) / 2 := by
    simp [sineShape]
  have h1 := Real.neg_one_le_sin (2 * π * a)
  have h2 := Real.sin_le_one (2 * π * a)
  have h3 := Real.neg_one_le_sin (2 * π * (a - π / 2))
  have h4 := Real.sin_le_one (2 * π * (a - π / 2))
  rw [hf, ht]
  refine ⟨⟨h1, h2⟩, by linarith, by linarith⟩

/-- Bounds for the triangle shape on [0, 1]: within [-1, 1] without
pulse, within [0, 1] with pulse. -/
theorem triangleShape_bounds (a : ℝ) (ha0 : 0 ≤ a) (ha1 : a ≤ 1) :
    (-1 ≤ triangleShape a false ∧ triangleShape a false ≤ 1) ∧
    (0 ≤ triangleShape a true ∧ triangleShape a true ≤ 1) := by
  constructor
  · have h : triangleShape a false =
        if a < 1/4 then 4 * a else if a > 3/4 then 4 * (a - 1) else 2 - 4 * a := by
      simp [triangleShape]
    rw [h]
    split_ifs with h1 h2 <;> constructor <;> linarith
  · have h : triangleShape a true = if a < 1/2 then 2 * a else 2 * (1 - a) := by
      simp [triangleShape]
    rw [h]
    split_ifs with h1 <;> constructor <;> linarith

/-- Bounds for the non-pulse square shape on [0, 1] with smoothing in
[0, 1/2]: within [-1, 1]. -/
theorem squareShapeNP_bounds (a s : ℝ) (ha0 : 0 ≤ a) (ha1 : a ≤ 1)
    (hs0 : 0 ≤ s) (hs1 : s ≤ 1/2) :
    -1 ≤ squareShapeNP a s ∧ squareShapeNP a s ≤ 1 := by
  unfold squareShapeNP
  split_ifs with hz hhalf hlt hmid hend hplat
  · exact ⟨by norm_num, by norm_num⟩
  · exact ⟨by norm_num, by norm_num⟩
  · have hspos : 0 < s := lt_of_le_of_ne hs0 (Ne.symm hz)
    have hnn : (0:ℝ) ≤ a / s := div_nonneg ha0 hspos.le
    exact ⟨by linarith, by rw [div_le_one hspos]; linarith⟩
  · have hspos : 0 < s := lt_of_le_of_ne hs0 (Ne.symm hz)
    constructor
    · rw [le_div_iff₀ hspos]; linarith [hmid.2]
    · rw [div_le_one hspos]; linarith [hmid.1]
  · have hspos : 0 < s := lt_of_le_of_ne hs0 (Ne.symm hz)
    constructor
    · rw [le_div_iff₀ hspos]; linarith
    · rw [div_le_one hspos]; linarith
  · exact ⟨by norm_num, by norm_num⟩
  · exact ⟨by norm_num, by norm_num⟩

/-- The non-pulse square shape restricted to the half cycle [0, 1/2],
which is where the pulse branch evaluates it: the value is within
[0, 1], except at the single point a = 1/2 with smoothing 0 where the
value is -1. -/
theorem squareShapeNP_half (a s : ℝ) (ha0 : 0 ≤ a) (ha1 : a ≤ 1/2)
    (hs0 : 0 ≤ s) (hs1 : s ≤ 1/2) :
    (0 ≤ squareShapeNP a s ∧ squareShapeNP a s ≤ 1) ∨
    (s = 0 ∧ a = 1/2 ∧ squareShapeNP a s = -1) := by
  unfold squareShapeNP
  split_ifs with hz hhalf hlt hmid hend hplat
  · exact Or.inl ⟨by norm_num, by norm_num⟩
  · exact Or.inr ⟨hz, le_antisymm ha1 (not_lt.1 hhalf), rfl⟩
  · have hspos : 0 < s := lt_of_le_of_ne hs0 (Ne.symm hz)
    exact Or.inl ⟨div_nonneg ha0 hspos.le, by rw [div_le_one hspos]; linarith⟩
  · have hspos : 0 < s := lt_of_le_of_ne hs0 (Ne.symm hz)
    refine Or.inl ⟨div_nonneg (by linarith) hspos.le, ?_⟩
    rw [div_le_one hspos]; linarith [hmid.1]
  · exact absurd hend (by push_neg; linarith)
  · exact Or.inl ⟨by norm_num, by norm_num⟩
  · exfalso
    have hspos : 0 < s := lt_of_le_of_ne hs0 (Ne.symm hz)
    have hsx : s ≤ a := not_lt.1 hlt
    push_neg at hmid hplat
    have h1 := hplat hsx
    have h2 := hmid h1
    linarith

/-- Bounds for the non-pulse sawtooth shape on [0, 1] with smoothing in
[0, 1/2]: within [-1, 1]. -/
theorem sawtoothShapeNP_bounds (a s : ℝ) (ha0 : 0 ≤ a) (ha1 : a ≤ 1)
    (hs0 : 0 ≤ s) (hs1 : s ≤ 1/2) :
    -1 ≤ sawtoothShapeNP a s ∧ sawtoothShapeNP a s ≤ 1 := by
  unfold sawtoothShapeNP
  split_ifs with hz hhalf hlow hhigh
  · exact ⟨by linarith, by linarith⟩
  · exact ⟨by linarith, by linarith⟩
  · have hpos : (0:ℝ) < 1/2 - s := lt_of_le_of_lt ha0 hlow
    have hnn : (0:ℝ) ≤ a / (1/2 - s) := div_nonneg ha0 hpos.le
    exact ⟨by linarith, by rw [div_le_one hpos]; linarith⟩
  · have hpos : (0:ℝ) < 1/2 - s := by linarith
    constructor
    · rw [le_div_iff₀ hpos]; linarith
    · rw [div_le_one hpos]; linarith
  · have hspos : 0 < s := lt_of_le_of_ne hs0 (Ne.symm hz)
    push_neg at hlow hhigh
    constructor
    · rw [le_div_iff₀ hspos]; linarith
    · rw [div_le_one hspos]; linarith

/-- The non-pulse sawtooth shape restricted to the half cycle [0, 1/2]:
within [0, 1], except at a = 1/2 with smoothing 0 where the value is
-1. -/
theorem sawtoothShapeNP_half (a s : ℝ) (ha0 : 0 ≤ a) (ha1 : a ≤ 1/2)
    (hs0 : 0 ≤ s) (hs1 : s ≤ 1/2) :
    (0 ≤ sawtoothShapeNP a s ∧ sawtoothShapeNP a s ≤ 1) ∨
    (s = 0 ∧ a = 1/2 ∧ sawtoothShapeNP a s = -1) := by
  unfold sawtoothShapeNP
  split_ifs with hz hhalf hlow hhigh
  · exact Or.inl ⟨by linarith, by linarith⟩
  · have ha : a = 1/2 := le_antisymm ha1 (not_lt.1 hhalf)
    exact Or.inr ⟨hz, ha, by rw [ha]; norm_num⟩
  · have hpos : (0:ℝ) < 1/2 - s := lt_of_le_of_lt ha0 hlow
    exact Or.inl ⟨div_nonneg ha0 hpos.le, by rw [div_le_one hpos]; linarith⟩
  · have hspos : 0 < s := lt_of_le_of_ne hs0 (Ne.symm hz)
    exact absurd hhigh (by push_neg; linarith)
  · have hspos : 0 < s := lt_of_le_of_ne hs0 (Ne.symm hz)
    push_neg at hlow
    refine Or.inl ⟨div_nonneg (by linarith) hspos.le, ?_⟩
    rw [div_le_one hspos]; linarith

/-- C3 counterexample: with smoothing 0, duty cycle 1/2 and pulse = true,
at phase 0.5 (normalized phase exactly equal to the duty cycle) the
square wave returns -1, outside the claimed pulse range [0, 1]. -/
theorem square_pulse_below_zero :
    square (1/2) 0 (1/2) true = -1 ∧ ¬(0 ≤ square (1/2) 0 (1/2) true) := by
  have h12 : Int.fract ((1:ℝ)/2) = 1/2 := Int.fract_eq_self.2 (by norm_num)
  have hval : square (1/2) 0 (1/2) true = -1 := by
    simp only [square, h12]
    rw [if_neg (by norm_num)]
    have harg : (1:ℝ)/2 / (1/2) = 1 := by norm_num
    rw [harg]
    have h1 : squareShape (1:ℝ) 0 true = squareNP (1/2) 0 1 := by
      norm_num [squareShape]
    rw [h1]
    simp only [squareNP, h12]
    rw [if_neg (by norm_num)]
    norm_num [squareShapeNP]
  exact ⟨hval, by rw [hval]; norm_num⟩

/-- C3 amended: for smoothing in [0, 1/2] and duty cycle in [0, 1] every
waveform output lies in [-1, 1]; with pulse = true the sine and triangle
outputs lie in [0, 1], and the square and sawtooth outputs lie in [0, 1]
except when smoothing = 0 and the normalized phase equals the (nonzero)
duty cycle, where they return -1. -/
theorem waveform_ranges (p s d : ℝ) (hs0 : 0 ≤ s) (hs1 : s ≤ 1/2)
    (hd0 : 0 ≤ d) (hd1 : d ≤ 1) (pulse : Bool) :
    (-1 ≤ sine p s d pulse ∧ sine p s d pulse ≤ 1) ∧
    (-1 ≤ triangle p s d pulse ∧ triangle p s d pulse ≤ 1) ∧
    (-1 ≤ square p s d pulse ∧ square p s d pulse ≤ 1) ∧
    (-1 ≤ sawtooth p s d pulse ∧ sawtooth p s d pulse ≤ 1) ∧
    (0 ≤ sine p s d true ∧ sine p s d true ≤ 1) ∧
    (0 ≤ triangle p s d true ∧ triangle p s d true ≤ 1) ∧
    (0 ≤ square p s d true ∨
      (s = 0 ∧ Int.fract p = d ∧ square p s d true = -1)) ∧
    (0 ≤ sawtooth p s d true ∨
      (s = 0 ∧ Int.fract p = d ∧ sawtooth p s d true = -1)) := by
  by_cases hg : Int.fract p > d ∨ d = 0
  · have hsine : ∀ q : Bool, sine p s d q = 0 := fun q => by
      simp only [sine, if_pos hg]
    have htri : ∀ q : Bool, triangle p s d q = 0 := fun q => by
      simp only [triangle, if_pos hg]
    have hsq : ∀ q : Bool, square p s d q = 0 := fun q => by
      simp only [square, if_pos hg]
    have hsaw : ∀ q : Bool, sawtooth p s d q = 0 := fun q => by
      simp only [sawtooth, if_pos hg]
    rw [hsine, htri, hsq, hsaw, hsine, htri, hsq, hsaw]
    norm_num
  · push_neg at hg
    obtain ⟨hle2, hne⟩ := hg
    have hle : Int.fract p ≤ d := not_lt.1 (by simpa using hle2)
    have hdpos : 0 < d := hd0.lt_of_ne (Ne.symm hne)
    have hg2 : ¬(Int.fract p > d ∨ d = 0) := by push_neg; exact ⟨hle, hne⟩
    have ha0 : 0 ≤ Int.fract p / d := div_nonneg (Int.fract_nonneg p) hdpos.le
    have ha1 : Int.fract p / d ≤ 1 := (div_le_one hdpos).2 hle
    have esine : ∀ q : Bool, sine p s d q = sineShape (Int.fract p / d) q :=
      fun q => by simp only [sine, if_neg hg2]
    have etri : ∀ q : Bool,
        triangle p s d q = triangleShape (Int.fract p / d) q :=
      fun q => by simp only [triangle, if_neg hg2]
    have esq : ∀ q : Bool, square p s d q = squareShape (Int.fract p / d) s q :=
      fun q => by simp only [square, if_neg hg2]
    have esaw : ∀ q : Bool,
        sawtooth p s d q = sawtoothShape (Int.fract p / d) s q :=
      fun q => by simp only [sawtooth, if_neg hg2]
    -- the pulse branches of square and sawtooth evaluate the non-pulse
    -- shape at the half phase fract p / d / 2, a point of [0, 1/2]
    have hy0 : 0 ≤ Int.fract p / d / 2 := by linarith
    have hy1 : Int.fract p / d / 2 ≤ 1/2 := by linarith
    have hyfr : Int.fract (Int.fract p / d / 2) = Int.fract p / d / 2 :=
      Int.fract_eq_self.2 ⟨hy0, by linarith⟩
    have esqt : squareShape (Int.fract p / d) s true =
        squareShapeNP (Int.fract p / d / 2) s := by
      have h1 : squareShape (Int.fract p / d) s true =
          squareNP (Int.fract p / d / 2) s 1 := by simp [squareShape]
      rw [h1]
      simp only [squareNP, hyfr]
      rw [if_neg (by push_neg; exact ⟨by linarith, one_ne_zero⟩), div_one]
    have esawt : sawtoothShape (Int.fract p / d) s true =
        sawtoothShapeNP (Int.fract p / d / 2) s := by
      have h1 : sawtoothShape (Int.fract p / d) s true =
          sawtoothNP (Int.fract p / d / 2) s 1 := by simp [sawtoothShape]
      rw [h1]
      simp only [sawtoothNP, hyfr]
      rw [if_neg (by push_neg; exact ⟨by linarith, one_ne_zero⟩), div_one]
    -- the boundary point of the half-cycle shape corresponds to a
    -- normalized phase equal to the duty cycle
    have hbd : Int.fract p / d / 2 = 1/2 → Int.fract p = d := by
      intro h
      have h2 : Int.fract p / d = 1 := by linarith
      rw [div_eq_iff hne] at h2
      linarith
    refine ⟨?_, ?_, ?_, ?_, ?_, ?_, ?_, ?_⟩
    · rw [esine]
      cases pulse with
      | false => exact (sineShape_bounds (Int.fract p / d)).1
      | true =>
        have h := (sineShape_bounds (Int.fract p / d)).2
        exact ⟨by linarith [h.1], h.2⟩
    · rw [etri]
      cases pulse with
      | false => exact (triangleShape_bounds (Int.fract p / d) ha0 ha1).1
      | true =>
        have h := (triangleShape_bounds (Int.fract p / d) ha0 ha1).2
        exact ⟨by linarith [h.1], h.2⟩
    · rw [esq]
      cases pulse with
      | false =>
        have h : squareShape (Int.fract p / d) s false =
            squareShapeNP (Int.fract p / d) s := by simp [squareShape]
        rw [h]
        exact squareShapeNP_bounds _ s ha0 ha1 hs0 hs1
      | true =>
        rw [esqt]
        exact squareShapeNP_bounds _ s hy0 (by linarith) hs0 hs1
    · rw [esaw]
      cases pulse with
      | false =>
        have h : sawtoothShape (Int.fract p / d) s false =
            sawtoothShapeNP (Int.fract p / d) s := by simp [sawtoothShape]
        rw [h]
        exact sawtoothShapeNP_bounds _ s ha0 ha1 hs0 hs1
      | true =>
        rw [esawt]
        exact sawtoothShapeNP_bounds _ s hy0 (by linarith) hs0 hs1
    · rw [esine]
      exact (sineShape_bounds (Int.fract p / d)).2
    · rw [etri]
      exact (triangleShape_bounds (Int.fract p / d) ha0 ha1).2
    · rw [esq, esqt]
      rcases squareShapeNP_half (Int.fract p / d / 2) s hy0 hy1 hs0 hs1 with
        h | ⟨h1, h2, h3⟩
      · exact Or.inl h.1
      · exact Or.inr ⟨h1, hbd h2, h3⟩
    · rw [esaw, esawt]
      rcases sawtoothShapeNP_half (Int.fract p / d / 2) s hy0 hy1 hs0 hs1 with
        h | ⟨h1, h2, h3⟩
      · exact Or.inl h.1
      · exact Or.inr ⟨h1, hbd h2, h3⟩

/-- Witness for C3 at a concrete input. -/
theorem waveform_ranges_witness :
    -1 ≤ sine (1/3) 0 1 false ∧ sine (1/3) 0 1 false ≤ 1 :=
  (waveform_ranges (1/3) 0 1 (by norm_num) (by norm_num) (by norm_num)
    (by norm_num) false).1

/-! ## C6: piecewise description of the smoothed square -/

/-- C6 counterexample: with smoothing 3/10 the ramp regions around the
crossings at 0 and 0.5 overlap; at phase 11/50, which lies inside the
claimed ramp around the 0.5 crossing, the code follows the ramp around 0
and returns 11/15 instead of the claimed ramp value
-(11/50 - 1/2) / (3/10) = 14/15. -/
theorem square_overlap_not_half_ramp :
    (1/2 - 3/10 < Int.fract ((11:ℝ)/50) ∧ Int.fract ((11:ℝ)/50) < 1/2 + 3/10) ∧
    square (11/50) (3/10) 1 false = 11/15 ∧
    square (11/50) (3/10) 1 false ≠ -(Int.fract ((11:ℝ)/50) - 1/2) / (3/10) := by
  have hf : Int.fract ((11:ℝ)/50) = 11/50 := Int.fract_eq_self.2 (by norm_num)
  have hval : square (11/50) (3/10) 1 false = 11/15 := by
    rw [square_d1, hf]
    have h1 : squareShape ((11:ℝ)/50) (3/10) false =
        squareShapeNP (11/50) (3/10) := by simp [squareShape]
    rw [h1]
    unfold squareShapeNP
    rw [if_neg (by norm_num), if_pos (by norm_num : (11:ℝ)/50 < 3/10)]
    norm_num
  refine ⟨⟨by rw [hf]; norm_num, by rw [hf]; norm_num⟩, hval, ?_⟩
  rw [hval, hf]
  norm_num

/-- C6 amended: the claimed piecewise description of the non-pulse square
at duty cycle 1, with the ramp regions made disjoint in the priority
order of the code (the ramp at 0 takes precedence over the ramp at 0.5,
which takes precedence over the ramp at 1) whenever smoothing exceeds
1/4 and the regions overlap.  With smoothing 0 the wave is the hard
split +1 on [0, 1/2) and -1 on [1/2, 1); with smoothing strictly between
0 and 1/2 the plateaus carry +1 and -1, the ramps are linear, and the
value is 0 at phases 0 and 0.5. -/
theorem square_description (p s : ℝ) :
    (square p 0 1 false = if Int.fract p < 1/2 then 1 else -1) ∧
    (0 < s → s < 1/2 →
      (Int.fract p < s → square p s 1 false = Int.fract p / s) ∧
      (s ≤ Int.fract p → Int.fract p ≤ 1/2 - s → square p s 1 false = 1) ∧
      (s ≤ Int.fract p → 1/2 - s < Int.fract p → Int.fract p < 1/2 + s →
        square p s 1 false = -(Int.fract p - 1/2) / s) ∧
      (1/2 + s ≤ Int.fract p → Int.fract p ≤ 1 - s →
        square p s 1 false = -1) ∧
      ((1/2 + s ≤ Int.fract p ∨ Int.fract p ≤ 1/2 - s) → s ≤ Int.fract p →
        1 - s < Int.fract p → square p s 1 false = (Int.fract p - 1) / s) ∧
      square 0 s 1 false = 0 ∧ square (1/2) s 1 false = 0) := by
  have hrw : ∀ q t : ℝ, square q t 1 false = squareShapeNP (Int.fract q) t := by
    intro q t
    rw [square_d1]
    simp [squareShape]
  constructor
  · rw [hrw]
    unfold squareShapeNP
    rw [if_pos rfl]
  · intro hs0 hs1
    have hz : s ≠ 0 := ne_of_gt hs0
    refine ⟨?_, ?_, ?_, ?_, ?_, ?_, ?_⟩
    · intro h
      rw [hrw]
      unfold squareShapeNP
      rw [if_neg hz, if_pos h]
    · intro h1 h2
      rw [hrw]
      unfold squareShapeNP
      rw [if_neg hz, if_neg (not_lt.2 h1),
        if_neg (show ¬(Int.fract p > 1/2 - s ∧ Int.fract p < 1/2 + s) by
          rintro ⟨cA, cB⟩; linarith),
        if_neg (show ¬(Int.fract p > 1 - s) by
          exact not_lt.2 (by linarith)),
        if_pos (⟨h1, h2⟩ : s ≤ Int.fract p ∧ Int.fract p ≤ 1/2 - s)]
    · intro h1 h2 h3
      rw [hrw]
      unfold squareShapeNP
      rw [if_neg hz, if_neg (not_lt.2 h1),
        if_pos (⟨h2, h3⟩ : Int.fract p > 1/2 - s ∧ Int.fract p < 1/2 + s)]
    · intro h1 h2
      rw [hrw]
      unfold squareShapeNP
      rw [if_neg hz, if_neg (not_lt.2 (by linarith : s ≤ Int.fract p)),
        if_neg (show ¬(Int.fract p > 1/2 - s ∧ Int.fract p < 1/2 + s) by
          rintro ⟨cA, cB⟩; linarith),
        if_neg (not_lt.2 h2),
        if_neg (show ¬(s ≤ Int.fract p ∧ Int.fract p ≤ 1/2 - s) by
          rintro ⟨cA, cB⟩; linarith)]
    · intro hdisj h1 h2
      rw [hrw]
      unfold squareShapeNP
      rw [if_neg hz, if_neg (not_lt.2 h1),
        if_neg (show ¬(Int.fract p > 1/2 - s ∧ Int.fract p < 1/2 + s) by
          rintro ⟨cA, cB⟩
          rcases hdisj with hA | hB <;> linarith),
        if_pos h2]
    · rw [hrw]
      unfold squareShapeNP
      rw [Int.fract_zero, if_neg hz, if_pos hs0]
      exact zero_div s
    · have h12 : Int.fract ((1:ℝ)/2) = 1/2 := Int.fract_eq_self.2 (by norm_num)
      rw [hrw, h12]
      unfold squareShapeNP
      rw [if_neg hz, if_neg (by linarith),
        if_pos (⟨by linarith, by linarith⟩ :
          (1:ℝ)/2 > 1/2 - s ∧ (1:ℝ)/2 < 1/2 + s)]
      norm_num

/-- Witness for C6 at smoothing 1/4: the value at phase 0 is 0. -/
theorem square_description_witness : square 0 (1/4) 1 false = 0 :=
  (((square_description 0 (1/4)).2 (by norm_num) (by norm_num)).2.2.2.2.2).1

/-! ## Client frame decoding (tunnelclient, src/unnamed/part_004)

The msgpack stream read by the client is modelled as a list of tokens:
array delimiters and primitive values.  Reading a value consumes tokens
from the front of the list; a parse returns the value together with the
remaining tokens, or none on a malformed stream.  The recursive entity
unpacker carries a fuel argument; the fuel needed is bounded by the
length of the token list, and the top-level decoder passes exactly that
length. -/

/-- One msgpack token as seen by the client unpacker. -/
inductive Token where
  | abegin
  | aend
  | int (n : ℤ)
  | long (n : ℤ)
  | float (r : ℝ)

/-- The fields of a serialized arc, in the order declared by the client
helper class ParsedArc: level, thickness, hue, sat, val, x, y, radX,
radY, start, stop, rotAngle. -/
structure ParsedArc where
  level : ℤ
  thickness : ℝ
  hue : ℝ
  sat : ℝ
  val : ℤ
  x : ℝ
  y : ℝ
  radX : ℝ
  radY : ℝ
  start : ℝ
  stop : ℝ
  rotAngle : ℝ

/-- The fields of a serialized line, in the order declared by the client
helper class ParsedLine. -/
structure ParsedLine where
  level : ℤ
  thickness : ℝ
  hue : ℝ
  sat : ℝ
  val : ℤ
  x : ℝ
  y : ℝ
  length : ℝ
  start : ℝ
  stop : ℝ
  rotAngle : ℝ

/-- A draw call produced by the unpacker: a DrawArc or a DrawLine
wrapping the parsed record. -/
inductive Draw where
  | arc (a : ParsedArc)
  | line (l : ParsedLine)

/-- Read one arc record: an array of the twelve fields in declaration
order, as the msgpack template for ParsedArc does. -/
def readArc : List Token → Option (ParsedArc × List Token)
  | Token.abegin :: Token.int level :: Token.float thickness ::
      Token.float hue :: Token.float sat :: Token.int val ::
      Token.float x :: Token.float y :: Token.float radX ::
      Token.float radY :: Token.float start :: Token.float stop ::
      Token.float rotAngle :: Token.aend :: ts =>
    some (⟨level, thickness, hue, sat, val, x, y, radX, radY,
      start, stop, rotAngle⟩, ts)
  | _ => none

/-- Read one line record: an array of the eleven fields in declaration
order. -/
def readLine : List Token → Option (ParsedLine × List Token)
  | Token.abegin :: Token.int level :: Token.float thickness ::
      Token.float hue :: Token.float sat :: Token.int val ::
      Token.float x :: Token.float y :: Token.float length ::
      Token.float start :: Token.float stop ::
      Token.float rotAngle :: Token.aend :: ts =>
    some (⟨level, thickness, hue, sat, val, x, y, length,
      start, stop, rotAngle⟩, ts)
  | _ => none

/-- Read arc records until the closing delimiter of the enclosing
array. -/
def readArcs : Nat → List Token → Option (List ParsedArc × List Token)
  | fuel, ts =>
    match ts with
    | Token.aend :: ts1 => some ([], ts1)
    | _ =>
      match fuel with
      | 0 => none
      | fuel + 1 =>
        match readArc ts with
        | some (a, ts1) =>
          match readArcs fuel ts1 with
          | some (as, ts2) => some (a :: as, ts2)
          | none => none
        | none => none

/-- Read line records until the closing delimiter of the enclosing
array. -/
def readLines : Nat → List Token → Option (List ParsedLine × List Token)
  | fuel, ts =>
    match ts with
    | Token.aend :: ts1 => some ([], ts1)
    | _ =>
      match fuel with
      | 0 => none
      | fuel + 1 =>
        match readLine ts with
        | some (l, ts1) =>
          match readLines fuel ts1 with
          | some (ls, ts2) => some (l :: ls, ts2)
          | none => none
        | none => none

/-- Read a whole list of arc records: the array delimiter, then the
records. -/
def readArcList : List Token → Option (List ParsedArc × List Token)
  | Token.abegin :: ts => readArcs ts.length ts
  | _ => none

/-- Read a whole list of line records. -/
def readLineList : List Token → Option (List ParsedLine × List Token)
  | Token.abegin :: ts => readLines ts.length ts
  | _ => none

/-- Run an entity parser a fixed number of times, concatenating the draw
calls in order: the loop of unpackShapeCollection. -/
def unpackMany (f : List Token → Option (List Draw × List Token)) :
    Nat → List Token → Option (List Draw × List Token)
  | 0, ts => some ([], ts)
  | n + 1, ts =>
    match f ts with
    | some (ds, ts1) =>
      match unpackMany f n ts1 with
      | some (rest, ts2) => some (ds ++ rest, ts2)
      | none => none
    | none => none

/-- The client unpackEntity: open the envelope array, read the type tag,
dispatch (0 = collection with a count and a nested array of entities,
1 = arc list, 2 = line list, anything else = no draw calls), and close
the envelope array. -/
def unpackEntity : Nat → List Token → Option (List Draw × List Token)
  | 0, _ => none
  | fuel + 1, Token.abegin :: Token.int t :: ts =>
    let result : Option (List Draw × List Token) :=
      if t = 0 then
        match ts with
        | Token.int n :: Token.abegin :: ts1 =>
          match unpackMany (fun u => unpackEntity fuel u) n.toNat ts1 with
          | some (ds, Token.aend :: ts2) => some (ds, ts2)
          | _ => none
        | _ => none
      else if t = 1 then
        match readArcList ts with
        | some (records, ts1) => some (records.map Draw.arc, ts1)
        | none => none
      else if t = 2 then
        match readLineList ts with
        | some (records, ts1) => some (records.map Draw.line, ts1)
        | none => none
      else some ([], ts)
    match result with
    | some (ds, Token.aend :: ts2) => some (ds, ts2)
    | _ => none
  | _ + 1, _ => none

/-- Decode one whole frame message as getNewestFrame does after choosing
a message: envelope array, frame number, frame time, one draw entity,
closing delimiter. -/
def decodeMessage (ts : List Token) : Option (ℤ × ℤ × List Draw) :=
  match ts with
  | Token.abegin :: Token.int fn :: Token.long ft :: ts1 =>
    match unpackEntity ts1.length ts1 with
    | some (ds, Token.aend :: _) => some (fn, ft, ds)
    | _ => none
  | _ => none

/-! The recursive structure of a well-formed serialized draw entity: a
collection of entities, a list of arc records, or a list of line
records.  EntityList is the spine of collection children. -/
mutual
inductive Entity where
  | coll (children : EntityList)
  | arcs (records : List ParsedArc)
  | lines (records : List ParsedLine)

inductive EntityList where
  | nil
  | cons (head : Entity) (tail : EntityList)
end

/-- Number of children in a collection spine. -/
def lengthEL : EntityList → Nat
  | EntityList.nil => 0
  | EntityList.cons _ es => lengthEL es + 1

/-- The token form of one arc record. -/
def encodeArcRecord (a : ParsedArc) : List Token :=
  [Token.abegin, Token.int a.level, Token.float a.thickness,
   Token.float a.hue, Token.float a.sat, Token.int a.val,
   Token.float a.x, Token.float a.y, Token.float a.radX,
   Token.float a.radY, Token.float a.start, Token.float a.stop,
   Token.float a.rotAngle, Token.aend]

/-- The token form of one line record. -/
def encodeLineRecord (l : ParsedLine) : List Token :=
  [Token.abegin, Token.int l.level, Token.float l.thickness,
   Token.float l.hue, Token.float l.sat, Token.int l.val,
   Token.float l.x, Token.float l.y, Token.float l.length,
   Token.float l.start, Token.float l.stop,
   Token.float l.rotAngle, Token.aend]

/-! The token form of a well-formed entity: envelope array, type tag,
payload.  A collection carries its count and a nested array of the
children in order. -/
mutual
def encodeEntity : Entity → List Token
  | Entity.coll cs =>
    Token.abegin :: Token.int 0 :: Token.int (lengthEL cs) :: Token.abegin ::
      (encodeEntityList cs ++ [Token.aend, Token.aend])
  | Entity.arcs records =>
    Token.abegin :: Token.int 1 :: Token.abegin ::
      ((records.map encodeArcRecord).flatten ++ [Token.aend, Token.aend])
  | Entity.lines records =>
    Token.abegin :: Token.int 2 :: Token.abegin ::
      ((records.map encodeLineRecord).flatten ++ [Token.aend, Token.aend])

def encodeEntityList : EntityList → List Token
  | EntityList.nil => []
  | EntityList.cons e es => encodeEntity e ++ encodeEntityList es
end

/-! The draw calls at the leaves of an entity tree, in order. -/
mutual
def leavesEntity : Entity → List Draw
  | Entity.coll cs => leavesList cs
  | Entity.arcs records => records.map Draw.arc
  | Entity.lines records => records.map Draw.line

def leavesList : EntityList → List Draw
  | EntityList.nil => []
  | EntityList.cons e es => leavesEntity e ++ leavesList es
end

/-- The token form of a whole frame message: envelope, frame number,
frame time, one entity. -/
def encodeMessage (fn ft : ℤ) (e : Entity) : List Token :=
  Token.abegin :: Token.int fn :: Token.long ft :: (encodeEntity e ++ [Token.aend])

/-! ## Round-trip lemmas for the client decoder -/

/-- Reading an encoded arc record consumes exactly its tokens. -/
theorem readArc_encode (a : ParsedArc) (ts : List Token) :
    readArc (encodeArcRecord a ++ ts) = some (a, ts) := rfl

/-- Reading an encoded line record consumes exactly its tokens. -/
theorem readLine_encode (l : ParsedLine) (ts : List Token) :
    readLine (encodeLineRecord l ++ ts) = some (l, ts) := rfl

/-- Reading encoded arc records up to the closing delimiter returns the
records in order, for any sufficient fuel. -/
theorem readArcs_encode (as : List ParsedArc) :
    ∀ (fuel : Nat) (rest : List Token), as.length ≤ fuel →
      readArcs fuel ((as.map encodeArcRecord).flatten ++ (Token.aend :: rest)) =
        some (as, rest) := by
  induction as with
  | nil =>
    intro fuel rest h
    simp [readArcs]
  | cons a as ih =>
    intro fuel rest h
    cases fuel with
    | zero => simp at h
    | succ f =>
      have hh : ((a :: as).map encodeArcRecord).flatten ++ (Token.aend :: rest) =
          encodeArcRecord a ++
            ((as.map encodeArcRecord).flatten ++ (Token.aend :: rest)) := by
        simp
      rw [hh]
      simp only [encodeArcRecord, List.cons_append, List.nil_append]
      simp only [readArcs, readArc]
      rw [ih f rest (by simpa using Nat.lt_succ_iff.1 (Nat.lt_of_lt_of_le
        (Nat.lt_succ_self as.length) (by simpa using h)))]

/-- Reading encoded line records up to the closing delimiter returns the
records in order, for any sufficient fuel. -/
theorem readLines_encode (ls : List ParsedLine) :
    ∀ (fuel : Nat) (rest : List Token), ls.length ≤ fuel →
      readLines fuel ((ls.map encodeLineRecord).flatten ++ (Token.aend :: rest)) =
        some (ls, rest) := by
  induction ls with
  | nil =>
    intro fuel rest h
    simp [readLines]
  | cons l ls ih =>
    intro fuel rest h
    cases fuel with
    | zero => simp at h
    | succ f =>
      have hh : ((l :: ls).map encodeLineRecord).flatten ++ (Token.aend :: rest) =
          encodeLineRecord l ++
            ((ls.map encodeLineRecord).flatten ++ (Token.aend :: rest)) := by
        simp
      rw [hh]
      simp only [encodeLineRecord, List.cons_append, List.nil_append]
      simp only [readLines, readLine]
      rw [ih f rest (by simpa using Nat.lt_succ_iff.1 (Nat.lt_of_lt_of_le
        (Nat.lt_succ_self ls.length) (by simpa using h)))]

/-- There are at least as many tokens in the encoded arc records as
records. -/
theorem length_le_flattenArcs (as : List ParsedArc) (X : List Token) :
    as.length ≤ ((as.map encodeArcRecord).flatten ++ X).length := by
  induction as with
  | nil => simp
  | cons a as ih =>
    have h14 : (encodeArcRecord a).length = 14 := rfl
    simp only [List.map_cons, List.flatten_cons, List.append_assoc,
      List.length_append, List.length_cons, h14] at *
    omega

/-- There are at least as many tokens in the encoded line records as
records. -/
theorem length_le_flattenLines (ls : List ParsedLine) (X : List Token) :
    ls.length ≤ ((ls.map encodeLineRecord).flatten ++ X).length := by
  induction ls with
  | nil => simp
  | cons l ls ih =>
    have h13 : (encodeLineRecord l).length = 13 := rfl
    simp only [List.map_cons, List.flatten_cons, List.append_assoc,
      List.length_append, List.length_cons, h13] at *
    omega

/-- Reading an encoded arc list consumes exactly its tokens. -/
theorem readArcList_encode (as : List ParsedArc) (rest : List Token) :
    readArcList (Token.abegin ::
        ((as.map encodeArcRecord).flatten ++ (Token.aend :: rest))) =
      some (as, rest) := by
  simp only [readArcList]
  exact readArcs_encode as _ rest (length_le_flattenArcs as _)

/-- Reading an encoded line list consumes exactly its tokens. -/
theorem readLineList_encode (ls : List ParsedLine) (rest : List Token) :
    readLineList (Token.abegin ::
        ((ls.map encodeLineRecord).flatten ++ (Token.aend :: rest))) =
      some (ls, rest) := by
  simp only [readLineList]
  exact readLines_encode ls _ rest (length_le_flattenLines ls _)

/-- The collection loop parses an encoded child spine, given that the
entity parser handles each child at the current fuel. -/
theorem unpackMany_encode (fuel : Nat)
    (ih : ∀ (e : Entity) (rest : List Token), (encodeEntity e).length ≤ fuel →
      unpackEntity fuel (encodeEntity e ++ rest) = some (leavesEntity e, rest)) :
    ∀ (n : Nat) (cs : EntityList), lengthEL cs = n →
      ∀ rest : List Token, (encodeEntityList cs).length ≤ fuel →
      unpackMany (fun u => unpackEntity fuel u) n (encodeEntityList cs ++ rest) =
        some (leavesList cs, rest) := by
  intro n
  induction n with
  | zero =>
    intro cs hcs rest hlen
    cases cs with
    | nil => simp [unpackMany, encodeEntityList, leavesList]
    | cons e es => simp [lengthEL] at hcs
  | succ n ihn =>
    intro cs hcs rest hlen
    cases cs with
    | nil => simp [lengthEL] at hcs
    | cons e es =>
      have hn : lengthEL es = n := by
        simpa [lengthEL] using hcs
      have hlen1 : (encodeEntity e).length ≤ fuel := by
        simp only [encodeEntityList, List.length_append] at hlen
        omega
      have hlen2 : (encodeEntityList es).length ≤ fuel := by
        simp only [encodeEntityList, List.length_append] at hlen
        omega
      simp only [encodeEntityList, leavesList, List.append_assoc]
      simp only [unpackMany]
      rw [ih e _ hlen1]
      dsimp only
      rw [ihn es hn rest hlen2]

/-- The entity parser consumes exactly an encoded entity and yields its
leaves, for any fuel at least the encoded length. -/
theorem unpackEntity_encode :
    ∀ (fuel : Nat) (e : Entity) (rest : List Token),
      (encodeEntity e).length ≤ fuel →
      unpackEntity fuel (encodeEntity e ++ rest) = some (leavesEntity e, rest) := by
  intro fuel
  induction fuel with
  | zero =>
    intro e rest h
    exfalso
    cases e <;> simp [encodeEntity] at h
  | succ f ihf =>
    intro e rest h
    cases e with
    | coll cs =>
      have hlen2 : (encodeEntityList cs).length ≤ f := by
        simp only [encodeEntity, List.length_cons, List.length_append,
          List.length_nil] at h
        omega
      simp only [encodeEntity, leavesEntity, List.cons_append, List.append_assoc,
        List.cons_append, List.nil_append]
      simp only [unpackEntity]
      rw [Int.toNat_natCast]
      rw [unpackMany_encode f ihf (lengthEL cs) cs rfl
        (Token.aend :: Token.aend :: rest) hlen2]
      simp
    | arcs records =>
      simp only [encodeEntity, leavesEntity, List.cons_append, List.append_assoc,
        List.cons_append, List.nil_append]
      simp only [unpackEntity]
      rw [readArcList_encode records (Token.aend :: rest)]
      simp
    | lines records =>
      simp only [encodeEntity, leavesEntity, List.cons_append, List.append_assoc,
        List.cons_append, List.nil_append]
      simp only [unpackEntity]
      rw [readLineList_encode records (Token.aend :: rest)]
      simp

/-! ## C7: frame decoding -/

/-- C7: the client frame decoder reads the frame number, the frame
timestamp, and one recursively structured draw entity; for every
well-formed message the decoded draw list is the in-order concatenation
of the leaves of the entity tree. -/
theorem client_frame_decode (fn ft : ℤ) (e : Entity) :
    decodeMessage (encodeMessage fn ft e) = some (fn, ft, leavesEntity e) := by
  simp only [encodeMessage, decodeMessage]
  rw [unpackEntity_encode (encodeEntity e ++ [Token.aend]).length e [Token.aend]
    (by simp)]

/-! ## C8: getNewestFrame drains the subscribe socket (tunnelclient)

The subscribe socket is modelled by the list of messages pending at the
time of the call, together with the message that a blocking receive
would deliver if nothing is pending.  A message is its token list. -/

/-- The drain loop of getNewestFrame: repeated non-blocking receives,
keeping the latest message, until the buffer is empty. -/
def drainNewest (current : List Token) : List (List Token) → List Token
  | [] => current
  | m :: ms => drainNewest m ms

/-- The client getNewestFrame: one blocking receive (the first pending
message, or the next message when nothing is pending), then the drain
loop, then decoding of the retained message.  Returns the decoded frame
and the messages left pending. -/
def getNewestFrame (pending : List (List Token)) (next : List Token) :
    Option (ℤ × ℤ × List Draw) × List (List Token) :=
  match pending with
  | [] => (decodeMessage next, [])
  | m :: ms => (decodeMessage (drainNewest m ms), [])

/-- The drain loop keeps the last message of the buffer. -/
theorem drainNewest_getLastD (ms : List (List Token)) :
    ∀ m : List Token, drainNewest m ms = ms.getLastD m := by
  induction ms with
  | nil => intro m; rfl
  | cons m2 ms ih =>
    intro m
    rw [List.getLastD_cons]
    exact ih m2

/-- C8: with messages pending, getNewestFrame decodes the most recently
received pending message and leaves nothing pending; with no message
pending it decodes the next message delivered by the blocking
receive. -/
theorem getNewestFrame_latest (m next : List Token)
    (ms : List (List Token)) :
    getNewestFrame (m :: ms) next = (decodeMessage (ms.getLastD m), []) ∧
    getNewestFrame [] next = (decodeMessage next, []) := by
  constructor
  · simp only [getNewestFrame, drainNewest_getLastD]
  · rfl
